import Mathlib

/-!
Formal model of the kharazmichi-bot core services.

Python strings are modelled as `List Char`; the ASCII fragment of Python's
whitespace and digit classes is used (the repository only manipulates such
characters in the code paths under study, apart from fixed Persian literals,
which contain no whitespace/digit subtleties).  Machine floats that the code
only parses from decimal literals and compares against small decimal bounds
are modelled as exact rationals.  Calls into external collaborators (the
SQL/vector store, the embedding and chat-completion APIs) are modelled by an
`Outcome` oracle: either the call returns a value or it raises.
-/

namespace Khuchi

/-- Python string, modelled as a list of characters. -/
abbrev Str := List Char

/-- Python's whitespace test, ASCII fragment: space, tab, newline, carriage
return, vertical tab, form feed. -/
def isSpace (c : Char) : Bool :=
  c = ' ' || c = '\t' || c = '\n' || c = '\r' || c = Char.ofNat 11 || c = Char.ofNat 12

/-- Python `str.lstrip()` (ASCII-whitespace fragment). -/
def lstrip (s : Str) : Str := s.dropWhile isSpace

/-- Python `str.rstrip()` (ASCII-whitespace fragment). -/
def rstrip (s : Str) : Str := (s.reverse.dropWhile isSpace).reverse

/-- Python `str.strip()` (ASCII-whitespace fragment). -/
def strip (s : Str) : Str := lstrip (rstrip s)

/-- Every character of `s` is whitespace. -/
def AllSpace (s : Str) : Prop := ∀ c ∈ s, isSpace c = true

/-- Python `str.split()` with no separator: the non-blank maximal runs of
non-whitespace characters, in order. -/
def pyWords : Str → List Str
  | [] => []
  | [c] => if isSpace c then [] else [[c]]
  | c :: d :: t =>
    if isSpace c then pyWords (d :: t)
    else if isSpace d then [c] :: pyWords (d :: t)
    else
      match pyWords (d :: t) with
      | [] => [[c]]
      | w :: ws => (c :: w) :: ws

/-- The paragraph separator the chunker splits on: a blank line. -/
def nl2 : Str := ['\n', '\n']

/-- Python `text.split("\n\n")`: split on each non-overlapping occurrence of
the two-character separator, scanning left to right. -/
def splitOn2 : Str → List Str
  | [] => [[]]
  | [c] => [[c]]
  | c :: d :: t =>
    if c = '\n' ∧ d = '\n' then [] :: splitOn2 t
    else
      match splitOn2 (d :: t) with
      | [] => [[c]]
      | q :: qs => (c :: q) :: qs

/-- Inner word-level loop of `KnowledgeLoader.chunk_text`
(scripts/load_knowledge.py lines 74-86): fall back to accumulating single
words when one paragraph exceeds the budget.  Arguments: the remaining words,
the chunks emitted so far, the running buffer `current_chunk`; returns the
updated chunks and buffer. -/
def wordLoop (size : Nat) : List Str → List Str → Str → List Str × Str
  | [], chunks, cur => (chunks, cur)
  | w :: ws, chunks, cur =>
    if size < cur.length + w.length then
      wordLoop size ws (if cur = [] then chunks else chunks ++ [strip cur]) (w ++ [' '])
    else
      wordLoop size ws chunks (cur ++ w ++ [' '])

/-- Paragraph-level loop of `KnowledgeLoader.chunk_text`
(scripts/load_knowledge.py lines 60-90).  Arguments: remaining paragraphs,
chunks emitted so far, running buffer; returns updated chunks and buffer. -/
def paraLoop (size : Nat) : List Str → List Str → Str → List Str × Str
  | [], chunks, cur => (chunks, cur)
  | p :: ps, chunks, cur =>
    let para := strip p
    if para = [] then paraLoop size ps chunks cur
    else if size < cur.length + para.length then
      let chunks1 := if cur = [] then chunks else chunks ++ [strip cur]
      if size < para.length then
        let r := wordLoop size (pyWords para) chunks1 []
        paraLoop size ps r.1 r.2
      else paraLoop size ps chunks1 (para ++ nl2)
    else paraLoop size ps chunks (cur ++ para ++ nl2)

/-- `KnowledgeLoader.chunk_text` (scripts/load_knowledge.py lines 47-99),
restricted to the chunk contents.  In the source every produced chunk is a
dict `{content, metadata}` whose metadata is the constant mapping
`source ↦ <the source label argument>`; the label plays no role in the
chunking itself, so chunks are modelled by their content strings. -/
def chunk_text (size : Nat) (text : Str) : List Str :=
  let t := strip text
  if t = [] then []
  else
    let r := paraLoop size (splitOn2 t) [] []
    if strip r.2 = [] then r.1 else r.1 ++ [strip r.2]

/-- The configured chunk budget: `self.chunk_size = 1000`
(scripts/load_knowledge.py line 28). -/
def chunk_size : Nat := 1000

/-- Contract for an emitted chunk: non-empty, and within the budget unless
the chunk is a single whitespace-free word (which may alone exceed it). -/
def GoodChunk (size : Nat) (s : Str) : Prop :=
  s ≠ [] ∧ (s.length ≤ size ∨ ∀ c ∈ s, isSpace c = false)

/-- Invariant of the running buffer `current_chunk`: it is empty, or ends in
a whitespace character and strips to a chunk satisfying the contract. -/
def GoodCur (size : Nat) (cur : Str) : Prop :=
  cur = [] ∨ ((∃ d, cur.getLast? = some d ∧ isSpace d = true) ∧ GoodChunk size (strip cur))

/-- A knowledge search result (src/database/models.py,
`KnowledgeSearchResult`): content, metadata and similarity score.  The
metadata dict is modelled by the only key the services read, its optional
source label; similarity floats are abstracted to rationals (they are only
carried along here). -/
structure KSResult where
  content : Str
  source : Option Str
  similarity : ℚ
  deriving DecidableEq

/-- The separator joining context parts in `format_context`. -/
def ctxSep : Str := "\n\n---\n\n".toList

/-- The ellipsis appended to a truncated context item. -/
def dots : Str := "...".toList

/-- Python `"sep".join(parts)` for the context separator. -/
def joinSep : List Str → Str
  | [] => []
  | [p] => p
  | p :: ps => p ++ ctxSep ++ joinSep ps

/-- The item text `format_context` builds for one search result (lines
136-141): the stripped content, prefixed with its source label when that
label is present and non-empty (`metadata.get("source", "")` is falsy both
when the key is absent and when it holds the empty string). -/
def buildContent (r : KSResult) : Str :=
  let c := strip r.content
  let s := r.source.getD []
  if s = [] then c else "[منبع: ".toList ++ s ++ "]\n".toList ++ c

/-- The loop of `KnowledgeBaseService.format_context`
(src/services/knowledge_base.py lines 135-152): walk the results, appending
built items while `total_length + len(content)` stays within `max_length`
(the running total over-counts each separator as 10 characters); on the
first overflowing item, include it truncated with an ellipsis only when the
remaining budget `max_length - total_length` exceeds 100, then stop. -/
def format_loop (maxL : Int) : List KSResult → List Str → Int → List Str
  | [], parts, _ => parts
  | r :: rs, parts, total =>
    let content := buildContent r
    if maxL < total + content.length then
      (if 100 < maxL - total then parts ++ [content.take (maxL - total).toNat ++ dots]
       else parts)
    else format_loop maxL rs (parts ++ [content]) (total + content.length + 10)

/-- `KnowledgeBaseService.format_context` (src/services/knowledge_base.py
lines 114-154). -/
def format_context (results : List KSResult) (maxL : Int) : Str :=
  if results = [] then [] else joinSep (format_loop maxL results [] 0)

/-- Closed form: how many leading results `format_context` includes whole,
starting from running total `total`. -/
def fitCount (maxL : Int) : List KSResult → Int → Nat
  | [], _ => 0
  | r :: rs, total =>
    if maxL < total + (buildContent r).length then 0
    else 1 + fitCount maxL rs (total + (buildContent r).length + 10)

/-- Closed form: the running total after the whole-included prefix. -/
def fitTotal (maxL : Int) : List KSResult → Int → Int
  | [], total => total
  | r :: rs, total =>
    if maxL < total + (buildContent r).length then total
    else fitTotal maxL rs (total + (buildContent r).length + 10)

/-- Closed form: the truncated item (if any) ending `format_context`'s
output — present exactly when an overflowing item exists and more than 100
characters of budget remain for it. -/
def overflowTail (maxL : Int) (rs : List KSResult) (total : Int) : List Str :=
  match rs.drop (fitCount maxL rs total) with
  | [] => []
  | r :: _ =>
    if 100 < maxL - fitTotal maxL rs total
    then [(buildContent r).take (maxL - fitTotal maxL rs total).toNat ++ dots]
    else []

/-- Outcome of one call into an external collaborator (store query, insert,
embedding or chat-completion request): the call returns a value, or it
raises.  Theorems quantify over outcomes, which covers every behaviour of
the external system. -/
inductive Outcome (α : Type) where
  | ok (a : α)
  | err
  deriving DecidableEq

/-- A stored usage-log row (table `usage_logs`): telegram id, creation
timestamp in seconds since the epoch (UTC — the ISO-8601 strings the store
compares with `gte` order exactly like these numbers), and the optional
logged excerpt. -/
structure UsageRec where
  telegram_id : Int
  created_at : Nat
  message_text : Option Str
  deriving DecidableEq

def secondsPerDay : Nat := 86400

/-- Start of the current UTC calendar day, i.e.
`datetime.now(timezone.utc).replace(hour=0, minute=0, second=0,
microsecond=0)` for a clock reading in seconds. -/
def dayStart (now : Nat) : Nat := now / secondsPerDay * secondsPerDay

/-- The count computed by the store for `get_today_count`'s query: rows with
this telegram id whose `created_at` is at least the given bound. -/
def countSince (s : List UsageRec) (uid : Int) (d : Nat) : Nat :=
  s.countP (fun r => r.telegram_id == uid && decide (d ≤ r.created_at))

/-- `UsageLogRepository.get_today_count` (repositories.py lines 87-106): on
a successful query, this user's row count since 00:00 UTC of the current
day; when the query raises, the exception handler returns 0. -/
def get_today_count (o : Outcome Unit) (s : List UsageRec) (uid : Int) (now : Nat) : Nat :=
  match o with
  | .ok _ => countSince s uid (dayStart now)
  | .err => 0

/-- `UsageLogRepository.is_rate_limited` (repositories.py lines 122-125). -/
def is_rate_limited (o : Outcome Unit) (s : List UsageRec) (uid : Int) (now : Nat)
    (quota : Nat) : Bool :=
  decide (quota ≤ get_today_count o s uid now)

/-- `UsageLogRepository.log_usage` (repositories.py lines 108-120): appends
a row on success; when the insert raises, the handler returns None and no
row is stored. -/
def log_usage (o : Outcome Unit) (s : List UsageRec) (rec : UsageRec) : List UsageRec :=
  match o with
  | .ok _ => s ++ [rec]
  | .err => s

/-- `UsageLogRepository.get_remaining_messages` (repositories.py lines
127-130). -/
def get_remaining_messages (o : Outcome Unit) (s : List UsageRec) (uid : Int) (now : Nat)
    (quota : Nat) : Int :=
  max 0 ((quota : Int) - get_today_count o s uid now)

/-- The rate limiter's user-facing message, abstracted to its identity: the
bilingual quota-exhausted text (an f-string carrying the configured limit),
or the empty string returned on the allowed path. -/
inductive RLMessage where
  | exhausted (limit : Nat)
  | empty
  deriving DecidableEq

/-- `message_text[:500] if message_text else None`: None and the empty
string are falsy, logging None; otherwise the first 500 characters. -/
def truncExcerpt (m : Option Str) : Option Str :=
  match m with
  | none => none
  | some t => if t = [] then none else some (t.take 500)

/-- `RateLimiter.check_and_log` (src/services/rate_limiter.py lines 21-54)
over an explicit store state and clock reading, with one oracle per store
call (the count query inside `is_rate_limited`, the insert, the count query
inside `get_remaining_messages`).  The DB assigns `created_at = now` to the
inserted row.  Returns the updated store and the
`(is_allowed, message, remaining_count)` triple. -/
def check_and_log (o1 oLog o2 : Outcome Unit) (s : List UsageRec) (uid : Int)
    (msg : Option Str) (now : Nat) (quota : Nat) :
    List UsageRec × Bool × RLMessage × Int :=
  if is_rate_limited o1 s uid now quota then
    (s, false, .exhausted quota, 0)
  else
    let s1 := log_usage oLog s ⟨uid, now, truncExcerpt msg⟩
    (s1, true, .empty, get_remaining_messages o2 s1 uid now quota)

/-- Repeated `check_and_log` calls by one user at the given clock times,
with every store call succeeding; returns the final store and each call's
`(is_allowed, remaining)` pair. -/
def runCalls (quota : Nat) (uid : Int) (msg : Option Str) :
    List Nat → List UsageRec → List UsageRec × List (Bool × Int)
  | [], s => (s, [])
  | t :: ts, s =>
    let r := check_and_log (.ok ()) (.ok ()) (.ok ()) s uid msg t quota
    let rest := runCalls quota uid msg ts r.1
    (rest.1, (r.2.1, r.2.2.2) :: rest.2)

/-- A stored user row (table `users`): telegram id, student code, optional
username and first name. -/
structure UserRec where
  telegram_id : Int
  student_code : Str
  username : Option Str
  first_name : Option Str
  deriving DecidableEq

/-- `UserRepository.get_by_telegram_id` (repositories.py lines 31-43): the
first stored row matching the id.  C2 concerns the service logic, so the
store is modelled as reachable (the repository returns None on a raised
client error as well; that path is the store-failure concern of C6/C10). -/
def get_by_telegram_id (s : List UserRec) (tid : Int) : Option UserRec :=
  s.find? (fun u => u.telegram_id == tid)

/-- `UserRepository.get_by_student_code` (repositories.py lines 45-57). -/
def get_by_student_code (s : List UserRec) (code : Str) : Option UserRec :=
  s.find? (fun u => u.student_code == code)

/-- Python `str.isdigit()`, ASCII fragment: non-empty and all characters in
0-9.  (Python also accepts other Unicode digit characters; no claim under
study involves them.) -/
def pyIsDigit (s : Str) : Bool := !s.isEmpty && s.all Char.isDigit

/-- The registration messages, abstracted to their identity: each source
message is a distinct fixed bilingual string (`valid` stands for the empty
message paired with True by the validator, `success` for the message
interpolating the registered code). -/
inductive RegMessage where
  | alreadyRegistered
  | codeTaken
  | codeEmpty
  | codeNotNumeric
  | codeTooShort
  | codeTooLong
  | valid
  | success (code : Str)
  deriving DecidableEq

/-- `AuthService._validate_student_code` (src/services/auth.py lines
70-94): rejects a falsy (empty) code; then strips surrounding whitespace
and checks the stripped code for digits-only and length within [5, 15]. -/
def validate_student_code (code : Str) : Bool × RegMessage :=
  if code = [] then (false, .codeEmpty)
  else
    let c := strip code
    if pyIsDigit c = false then (false, .codeNotNumeric)
    else if c.length < 5 then (false, .codeTooShort)
    else if 15 < c.length then (false, .codeTooLong)
    else (true, .valid)

/-- `AuthService.register_user` (src/services/auth.py lines 27-68) over an
explicit user store.  The store is modelled as reliable, under which
`UserRepository.create` appends the row and the claim's four outcomes are
exhaustive (`create` returning None on a raised client error is the fifth,
store-failure path outside C2's scope). -/
def register_user (s : List UserRec) (tid : Int) (code : Str)
    (username first_name : Option Str) : List UserRec × Bool × RegMessage :=
  match get_by_telegram_id s tid with
  | some _ => (s, false, .alreadyRegistered)
  | none =>
    match get_by_student_code s code with
    | some _ => (s, false, .codeTaken)
    | none =>
      let v := validate_student_code code
      if v.1 = false then (s, false, v.2)
      else (s ++ [⟨tid, code, username, first_name⟩], true, .success code)

/-- Numeric value of a digit run. -/
def digitsToNat (ds : Str) : Nat := ds.foldl (fun a c => a * 10 + (c.toNat - 48)) 0

/-- A decimal literal matched by the coordinate pattern, kept exact: the
value is `mant / 10 ^ fexp`.  (Python parses the matched text with
`float()`; the bounds 25/40/44/64 and every literal in the claims compare
identically in exact and in binary-float arithmetic.) -/
structure DecNum where
  mant : Int
  fexp : Nat
  deriving DecidableEq

/-- The exact rational value of a matched decimal literal. -/
def DecNum.toRat (n : DecNum) : ℚ := (n.mant : ℚ) / (10 : ℚ) ^ n.fexp

/-- The unsigned part of the regex fragment `\d+\.?\d*`, anchored here:
greedy digits, then an optional dot with greedy fraction digits. -/
def matchUnsigned (cs : Str) : Option DecNum :=
  let ds := cs.takeWhile Char.isDigit
  if ds = [] then none
  else
    match cs.dropWhile Char.isDigit with
    | '.' :: r =>
      let fs := r.takeWhile Char.isDigit
      some ⟨(digitsToNat ds * 10 ^ fs.length + digitsToNat fs : Nat), fs.length⟩
    | _ => some ⟨(digitsToNat ds : Nat), 0⟩

/-- The regex fragment `-?\d+\.?\d*` anchored here.  When a leading minus is
not followed by a digit, the attempt fails both with and without the
optional sign, so the whole anchored match fails. -/
def matchNumber (cs : Str) : Option DecNum :=
  match cs with
  | '-' :: r => (matchUnsigned r).map (fun n => ⟨-n.mant, n.fexp⟩)
  | _ => matchUnsigned cs

/-- One attempt of the pattern `LABEL[^:]*:\s*(-?\d+\.?\d*)` anchored at
this position: the literal label, everything up to the first following
colon (the class `[^:]*` cannot cross a colon, so greediness fixes it to
exactly that span), the colon, greedy whitespace, then the captured number;
if any part fails the attempt at this position fails. -/
def matchLabelAt (label : Str) (cs : Str) : Option DecNum :=
  if label.isPrefixOf cs then
    match (cs.drop label.length).dropWhile (fun c => c != ':') with
    | ':' :: r2 => matchNumber (r2.dropWhile (fun c => isSpace c))
    | _ => none
  else none

/-- `re.search`: try the anchored pattern at every start position from the
left, returning the first success. -/
def searchLabel (label : Str) : Str → Option DecNum
  | [] => matchLabelAt label []
  | c :: cs =>
    match matchLabelAt label (c :: cs) with
    | some v => some v
    | none => searchLabel label cs

/-- The Persian latitude label in the source pattern. -/
def latLabel : Str := "عرض".toList

/-- The Persian longitude label in the source pattern. -/
def lngLabel : Str := "طول".toList

/-- The regional box test `25 <= lat <= 40 and 44 <= lng <= 64` on the
exact values, stated by cross-multiplication (equivalent to the rational
comparison on `toRat`, proved in `inBox_iff_toRat`). -/
def inBox (lat lng : DecNum) : Prop :=
  25 * 10 ^ lat.fexp ≤ lat.mant ∧ lat.mant ≤ 40 * 10 ^ lat.fexp ∧
  44 * 10 ^ lng.fexp ≤ lng.mant ∧ lng.mant ≤ 64 * 10 ^ lng.fexp

instance (lat lng : DecNum) : Decidable (inBox lat lng) := by
  unfold inBox
  infer_instance

/-- `AIAgent._extract_coordinates` (src/services/ai_agent.py lines
250-266): search the text for the Persian latitude label عرض and longitude
label طول, each followed by non-colon characters, a colon, optional
whitespace, and a decimal number; accept the pair only inside the regional
bounding box 25 ≤ lat ≤ 40 and 44 ≤ lng ≤ 64.  (`float()` cannot raise on a
string matched by the numeric fragment, so the source's ValueError handler
is unreachable.) -/
def extract_coordinates (text : Str) : Option (DecNum × DecNum) :=
  match searchLabel latLabel text, searchLabel lngLabel text with
  | some lat, some lng => if inBox lat lng then some (lat, lng) else none
  | _, _ => none

/-- A Python exception crossing a try boundary (its payload plays no role in
the modelled behaviour: every handler under study is a catch-all). -/
inductive PyExc where
  | exc
  deriving DecidableEq

/-- A row returned by the `match_knowledge` RPC (repositories.py lines
220-237): content, the optional metadata source label, similarity.  The
similarity threshold and result limit are enforced store-side by the RPC,
so they appear only as call arguments. -/
structure KRow where
  content : Str
  source : Option Str
  similarity : ℚ
  deriving DecidableEq

/-- `KnowledgeRepository.search` (repositories.py lines 211-241): maps the
RPC's rows into `KnowledgeSearchResult` values; a falsy (empty) row list
yields []; any error raised by the RPC is caught and the handler returns
[]. -/
def repo_search (o : Outcome (List KRow)) (_limit : Nat) (_threshold : ℚ) : List KSResult :=
  match o with
  | .ok rows => rows.map (fun r => ⟨r.content, r.source, r.similarity⟩)
  | .err => []

/-- `KnowledgeBaseService._get_embedding` (knowledge_base.py lines 65-75):
the embedding vector of the first response item, or None when the embedding
call raises. -/
def get_embedding (o : Outcome (List ℚ)) : Option (List ℚ) :=
  match o with
  | .ok v => some v
  | .err => none

/-- The try-block body of `KnowledgeBaseService.search` (knowledge_base.py
lines 44-59) in an exception monad over the call outcomes: `if not
query_embedding` returns [] both for None (embedding failure) and for an
empty vector; otherwise the repository search runs (itself catching store
errors).  Both sub-calls catch their own exceptions, so the body never
throws. -/
def kb_search_body (eo : Outcome (List ℚ)) (so : Outcome (List KRow))
    (limit : Nat) (threshold : ℚ) : Except PyExc (List KSResult) :=
  match get_embedding eo with
  | none => .ok []
  | some v => if v = [] then .ok [] else .ok (repo_search so limit threshold)

/-- `KnowledgeBaseService.search`: the body wrapped in the outer try/except
(lines 61-63), whose handler returns []. -/
def kb_search (eo : Outcome (List ℚ)) (so : Outcome (List KRow))
    (limit : Nat) (threshold : ℚ) : List KSResult :=
  match kb_search_body eo so limit threshold with
  | .ok r => r
  | .error _ => []

/-- One tool call requested by the model inside `AIAgent.chat`, carrying
the outcomes of the calls its dispatch performs: `json.loads` of its
arguments (on success holding the value at the one key the dispatch reads,
or none when that key is missing — accessing it then raises KeyError), and
the embedding/store outcomes of the knowledge search the tool runs. -/
structure ToolCallData where
  name : Str
  args : Outcome (Option Str)
  eo : Outcome (List ℚ)
  so : Outcome (List KRow)
  deriving DecidableEq

/-- The assistant message of the first completion: optional content and the
requested tool calls (an empty list models a falsy `tool_calls`). -/
structure AssistantMsg where
  content : Option Str
  tool_calls : List ToolCallData
  deriving DecidableEq

/-- Python `content or fallback`: both None and the empty string are falsy. -/
def contentOr (c : Option Str) (fallback : Str) : Str :=
  match c with
  | none => fallback
  | some s => if s = [] then fallback else s

/-- The fixed apology returned by `AIAgent.chat`'s exception handler
(ai_agent.py line 223). -/
def apologyText : Str := "یه مشکلی پیش اومد، دوباره امتحان کن.".toList

/-- The fallback used when the model returns falsy content. -/
def defaultText : Str := "متوجه نشدم، دوباره بگو.".toList

/-- Sentinel returned by `_search_knowledge` when nothing was found. -/
def notFoundText : Str := "اطلاعاتی در پایگاه داده پیدا نشد.".toList

/-- Sentinel tool-message content when `send_location` found nothing. -/
def noCoordsText : Str := "مختصات این مکان موجود نیست".toList

/-- The separator `_search_knowledge` joins formatted results with. -/
def toolSep : Str := "\n---\n".toList

/-- The advertised tool name `search_knowledge`. -/
def searchToolName : Str := "search_knowledge".toList

/-- The advertised tool name `send_location`. -/
def sendLocationToolName : Str := "send_location".toList

/-- Python `"\n---\n".join(parts)`. -/
def joinDashes : List Str → Str
  | [] => []
  | [p] => p
  | p :: ps => p ++ toolSep ++ joinDashes ps

/-- `AIAgent._search_knowledge`'s result formatting (ai_agent.py lines
225-237): a sentinel when nothing was found, else the result contents
joined by the separator.  (Each block also renders the similarity score
with `:.2f`; that numeric rendering is presentation fed back to the model
through the universally-quantified completion oracle and is elided.) -/
def formatToolResult (results : List KSResult) : Str :=
  if results = [] then notFoundText
  else joinDashes (results.map (fun r => r.content))

/-- Scan of `_get_location` (ai_agent.py lines 243-248): the first
result whose content yields coordinates. -/
def firstLocation : List KSResult → Option (DecNum × DecNum)
  | [] => none
  | r :: rs =>
    match extract_coordinates r.content with
    | some l => some l
    | none => firstLocation rs

/-- `AIAgent._get_location` (ai_agent.py lines 239-248): search the
knowledge base (limit 5, the service's default threshold 0.3) and scan for
the first extractable coordinate pair. -/
def get_location (eo : Outcome (List ℚ)) (so : Outcome (List KRow)) :
    Option (DecNum × DecNum) :=
  firstLocation (kb_search eo so 5 (3 / 10))

/-- `json.dumps(location_to_send) if location_to_send else <sentinel>`: the
tool-message content for `send_location`.  The JSON rendering of the pair
is presentation fed back to the model through the completion oracle; it is
elided to a fixed tag. -/
def serializeLocation (l : Option (DecNum × DecNum)) : Str :=
  match l with
  | some _ => "json".toList
  | none => noCoordsText

/-- Dispatch of one tool call in `AIAgent.chat`'s loop (ai_agent.py lines
179-197): `json.loads` of the arguments may raise; a missing required key
raises KeyError; `search_knowledge` appends the formatted results as a tool
message; `send_location` overwrites the pending location (even with None —
the source assigns unconditionally, so the last call wins) and appends the
serialized pair or a sentinel; an `if`/`elif` fall-through on an unknown
tool name appends no tool message and leaves the location unchanged. -/
def runToolCall (tc : ToolCallData) (loc : Option (DecNum × DecNum)) :
    Except PyExc (Option Str × Option (DecNum × DecNum)) :=
  match tc.args with
  | .err => .error .exc
  | .ok args =>
    if tc.name = searchToolName then
      match args with
      | none => .error .exc
      | some _ => .ok (some (formatToolResult (kb_search tc.eo tc.so 5 (3 / 10))), loc)
    else if tc.name = sendLocationToolName then
      match args with
      | none => .error .exc
      | some _ =>
        .ok (some (serializeLocation (get_location tc.eo tc.so)), get_location tc.eo tc.so)
    else .ok (none, loc)

/-- The tool-dispatch loop over all requested calls, threading the pending
location and collecting the tool messages. -/
def runToolCalls : List ToolCallData → Option (DecNum × DecNum) →
    Except PyExc (List Str × Option (DecNum × DecNum))
  | [], loc => .ok ([], loc)
  | tc :: tcs, loc =>
    match runToolCall tc loc with
    | .error e => .error e
    | .ok (res, loc1) =>
      match runToolCalls tcs loc1 with
      | .error e => .error e
      | .ok (rest, loc2) => .ok (res.toList ++ rest, loc2)

/-- A tool call whose dispatch raises: `json.loads` failed, or the required
argument key is missing for a known tool name. -/
def tcThrows (tc : ToolCallData) : Bool :=
  match tc.args with
  | .err => true
  | .ok none => (tc.name == searchToolName) || (tc.name == sendLocationToolName)
  | .ok (some _) => false

/-- The try-block body of `AIAgent.chat` (ai_agent.py lines 161-219) in an
exception monad over the call outcomes: the first completion `o1`, the
dispatch of each requested tool call, and — only when tool calls were
requested — the second completion `o2`.  The prompt assembly from `history`
and `userMsg` (lines 148-159) is pure data plumbing into the completion
calls; quantifying theorems over the completion outcomes covers every
response the model could give to any prompt. -/
def chat_body (_history : List (Str × Str)) (_userMsg : Str)
    (o1 : Outcome AssistantMsg) (o2 : Outcome (Option Str)) :
    Except PyExc (Str × Option (DecNum × DecNum)) :=
  match o1 with
  | .err => .error .exc
  | .ok am =>
    if am.tool_calls = [] then .ok (contentOr am.content defaultText, none)
    else
      match runToolCalls am.tool_calls none with
      | .error e => .error e
      | .ok (_, loc) =>
        match o2 with
        | .err => .error .exc
        | .ok c2 => .ok (contentOr c2 defaultText, loc)

/-- `AIAgent.chat` (ai_agent.py lines 135-223): the body wrapped in the
catch-all except, whose handler returns the fixed apology and no
location. -/
def chat (history : List (Str × Str)) (userMsg : Str)
    (o1 : Outcome AssistantMsg) (o2 : Outcome (Option Str)) :
    Str × Option (DecNum × DecNum) :=
  match chat_body history userMsg o1 o2 with
  | .ok r => r
  | .error _ => (apologyText, none)

end Khuchi

namespace Khuchi

theorem pyWords_nil : pyWords [] = [] := rfl

theorem pyWords_cons_space {c : Char} (h : isSpace c = true) (cs : Str) :
    pyWords (c :: cs) = pyWords cs := by
  cases cs with
  | nil => simp [pyWords, h]
  | cons d t => simp [pyWords, h]

theorem pyWords_singleton {c : Char} (h : isSpace c = false) : pyWords [c] = [[c]] := by
  simp [pyWords, h]

theorem pyWords_cons_cons_space {c d : Char} (hc : isSpace c = false) (hd : isSpace d = true)
    (t : Str) : pyWords (c :: d :: t) = [c] :: pyWords (d :: t) := by
  simp [pyWords, hc, hd]

theorem pyWords_ne_nil {c : Char} (h : isSpace c = false) (cs : Str) :
    pyWords (c :: cs) ≠ [] := by
  cases cs with
  | nil => simp [pyWords, h]
  | cons d t =>
    by_cases hd : isSpace d = true
    · simp [pyWords, h, hd]
    · simp only [Bool.not_eq_true] at hd
      cases hw : pyWords (d :: t) with
      | nil => simp [pyWords, h, hd, hw]
      | cons w ws => simp [pyWords, h, hd, hw]

theorem pyWords_cons_cons_nonspace {c d : Char} (hc : isSpace c = false)
    (hd : isSpace d = false) (t : Str) {w : Str} {ws : List Str}
    (hw : pyWords (d :: t) = w :: ws) :
    pyWords (c :: d :: t) = (c :: w) :: ws := by
  simp [pyWords, hc, hd, hw]

theorem pyWords_allSpace {s : Str} (h : AllSpace s) : pyWords s = [] := by
  induction s with
  | nil => rfl
  | cons c cs ih =>
    rw [pyWords_cons_space (h c (List.mem_cons_self c cs))]
    exact ih fun x hx => h x (List.mem_cons_of_mem c hx)

theorem rstrip_append_allSpace {t : Str} (h : AllSpace t) (s : Str) :
    rstrip (s ++ t) = rstrip s := by
  unfold rstrip
  rw [List.reverse_append, List.dropWhile_append_of_pos]
  intro a ha
  exact h a (List.mem_reverse.mp ha)

theorem strip_append_allSpace {t : Str} (h : AllSpace t) (s : Str) :
    strip (s ++ t) = strip s := by
  unfold strip
  rw [rstrip_append_allSpace h]

theorem rstrip_length_le (s : Str) : (rstrip s).length ≤ s.length := by
  unfold rstrip
  rw [List.length_reverse]
  calc (s.reverse.dropWhile isSpace).length ≤ s.reverse.length := ((List.dropWhile_suffix _).sublist).length_le
    _ = s.length := List.length_reverse s

theorem strip_length_le (s : Str) : (strip s).length ≤ s.length := by
  unfold strip lstrip
  calc ((rstrip s).dropWhile isSpace).length ≤ (rstrip s).length := ((List.dropWhile_suffix _).sublist).length_le
    _ ≤ s.length := rstrip_length_le s

theorem exists_rstrip_decomp (s : Str) : ∃ t, s = rstrip s ++ t ∧ AllSpace t := by
  refine ⟨(s.reverse.takeWhile isSpace).reverse, ?_, ?_⟩
  · unfold rstrip
    rw [← List.reverse_append, List.takeWhile_append_dropWhile, List.reverse_reverse]
  · intro c hc
    exact List.mem_takeWhile_imp (List.mem_reverse.mp hc)

theorem strip_eq_nil_iff {s : Str} : strip s = [] ↔ AllSpace s := by
  constructor
  · intro h
    obtain ⟨t, hdec, ht⟩ := exists_rstrip_decomp s
    unfold strip lstrip at h
    have hr : AllSpace (rstrip s) := List.dropWhile_eq_nil_iff.mp h
    rw [hdec]
    intro c hc
    rcases List.mem_append.mp hc with h1 | h2
    · exact hr c h1
    · exact ht c h2
  · intro h
    have hr : AllSpace (rstrip s) := by
      intro c hc
      unfold rstrip at hc
      exact h c (List.mem_reverse.mp (((List.dropWhile_suffix isSpace).sublist).subset (List.mem_reverse.mp hc)))
    unfold strip lstrip
    exact List.dropWhile_eq_nil_iff.mpr hr

theorem strip_wsFree {s : Str} (h : ∀ c ∈ s, isSpace c = false) : strip s = s := by
  have hl : ∀ u : Str, (∀ c ∈ u, isSpace c = false) → u.dropWhile isSpace = u := by
    intro u hu
    cases u with
    | nil => rfl
    | cons c cs => exact List.dropWhile_cons_of_neg (by simp [hu c (List.mem_cons_self c cs)])
  unfold strip rstrip lstrip
  rw [hl s.reverse (fun c hc => h c (List.mem_reverse.mp hc)), List.reverse_reverse, hl s h]

theorem strip_head_nonspace {s : Str} {c : Char} {t : Str} (h : strip s = c :: t) :
    isSpace c = false := by
  have := List.head?_dropWhile_not isSpace (rstrip s)
  unfold strip lstrip at h
  rw [h] at this
  simpa using this

theorem strip_not_allSpace {s : Str} (h : strip s ≠ []) : ∃ c ∈ strip s, isSpace c = false := by
  cases hs : strip s with
  | nil => exact absurd hs h
  | cons c t => exact ⟨c, by simp [hs], strip_head_nonspace hs⟩

theorem strip_strip_ne_nil {s : Str} (h : strip s ≠ []) : strip (strip s) ≠ [] := by
  intro hcon
  obtain ⟨c, hc, hcs⟩ := strip_not_allSpace h
  have := strip_eq_nil_iff.mp hcon c hc
  rw [this] at hcs
  exact Bool.true_eq_false.mp hcs

theorem pyWords_append_of_last_space (b : Str) :
    ∀ a : Str, (∀ d, a.getLast? = some d → isSpace d = true) →
      pyWords (a ++ b) = pyWords a ++ pyWords b := by
  intro a
  induction a with
  | nil => simp [pyWords_nil]
  | cons c a' ih =>
    intro h
    cases a' with
    | nil =>
      have hc : isSpace c = true := h c rfl
      rw [List.cons_append, List.nil_append, pyWords_cons_space hc,
        pyWords_cons_space hc, pyWords_nil, List.nil_append]
    | cons d a'' =>
      have h' : ∀ e, (d :: a'').getLast? = some e → isSpace e = true := by
        intro e he
        exact h e (by rw [List.getLast?_cons_cons]; exact he)
      by_cases hc : isSpace c = true
      · rw [List.cons_append, pyWords_cons_space hc, pyWords_cons_space hc, ih h']
      · rw [Bool.not_eq_true] at hc
        by_cases hd : isSpace d = true
        · rw [List.cons_append, List.cons_append, pyWords_cons_cons_space hc hd,
            pyWords_cons_cons_space hc hd, ← List.cons_append, ih h', List.cons_append]
        · rw [Bool.not_eq_true] at hd
          cases hw : pyWords (d :: a'') with
          | nil => exact absurd hw (pyWords_ne_nil hd a'')
          | cons w ws =>
            have hab : pyWords (d :: (a'' ++ b)) = w :: (ws ++ pyWords b) := by
              have := ih h'
              rw [List.cons_append, hw] at this
              rw [← List.cons_append] at this
              simpa using this
            rw [List.cons_append, List.cons_append,
              pyWords_cons_cons_nonspace hc hd _ hab,
              pyWords_cons_cons_nonspace hc hd _ hw, List.cons_append]

theorem pyWords_append_allSpace {t : Str} (h : AllSpace t) :
    ∀ a : Str, pyWords (a ++ t) = pyWords a := by
  intro a
  induction a with
  | nil => rw [List.nil_append, pyWords_allSpace h, pyWords_nil]
  | cons c a' ih =>
    by_cases hc : isSpace c = true
    · rw [List.cons_append, pyWords_cons_space hc, pyWords_cons_space hc, ih]
    · rw [Bool.not_eq_true] at hc
      cases a' with
      | nil =>
        cases t with
        | nil => rfl
        | cons e t' =>
          have he : isSpace e = true := h e (List.mem_cons_self e t')
          rw [List.cons_append, List.nil_append, pyWords_cons_cons_space hc he,
            pyWords_allSpace h, pyWords_singleton hc]
      | cons d a'' =>
        by_cases hd : isSpace d = true
        · rw [List.cons_append, List.cons_append, pyWords_cons_cons_space hc hd,
            pyWords_cons_cons_space hc hd, ← List.cons_append, ih]
        · rw [Bool.not_eq_true] at hd
          cases hw : pyWords (d :: a'') with
          | nil => exact absurd hw (pyWords_ne_nil hd a'')
          | cons w ws =>
            have hab : pyWords (d :: (a'' ++ t)) = w :: ws := by
              have := ih
              rw [List.cons_append, hw] at this
              simpa using this
            rw [List.cons_append, List.cons_append,
              pyWords_cons_cons_nonspace hc hd _ hab,
              pyWords_cons_cons_nonspace hc hd _ hw]

theorem pyWords_lstrip (s : Str) : pyWords (lstrip s) = pyWords s := by
  induction s with
  | nil => rfl
  | cons c cs ih =>
    by_cases hc : isSpace c = true
    · unfold lstrip at ih ⊢
      rw [List.dropWhile_cons_of_pos hc, ih, pyWords_cons_space hc]
    · unfold lstrip
      rw [List.dropWhile_cons_of_neg (by simp [hc])]

theorem pyWords_rstrip (s : Str) : pyWords (rstrip s) = pyWords s := by
  obtain ⟨t, hdec, ht⟩ := exists_rstrip_decomp s
  conv_rhs => rw [hdec]
  rw [pyWords_append_allSpace ht]

theorem pyWords_strip (s : Str) : pyWords (strip s) = pyWords s := by
  unfold strip
  rw [pyWords_lstrip, pyWords_rstrip]

theorem pyWords_wsFree {w : Str} (hne : w ≠ []) (h : ∀ c ∈ w, isSpace c = false) :
    pyWords w = [w] := by
  induction w with
  | nil => exact absurd rfl hne
  | cons c cs ih =>
    have hc : isSpace c = false := h c (List.mem_cons_self c cs)
    cases cs with
    | nil => exact pyWords_singleton hc
    | cons d t =>
      have hd : isSpace d = false := h d (by simp)
      have hrec : pyWords (d :: t) = [d :: t] :=
        ih (by simp) (fun x hx => h x (List.mem_cons_of_mem c hx))
      rw [pyWords_cons_cons_nonspace hc hd _ hrec]

theorem pyWords_words_good :
    ∀ s : Str, ∀ w ∈ pyWords s, w ≠ [] ∧ ∀ c ∈ w, isSpace c = false := by
  intro s
  induction s with
  | nil => intro w hw; simp [pyWords_nil] at hw
  | cons c cs ih =>
    by_cases hc : isSpace c = true
    · rw [pyWords_cons_space hc]; exact ih
    · rw [Bool.not_eq_true] at hc
      cases cs with
      | nil =>
        intro w hw
        rw [pyWords_singleton hc] at hw
        simp at hw
        subst hw
        exact ⟨by simp, by intro x hx; simp at hx; subst hx; exact hc⟩
      | cons d t =>
        by_cases hd : isSpace d = true
        · rw [pyWords_cons_cons_space hc hd]
          intro w hw
          rcases List.mem_cons.mp hw with h1 | h2
          · subst h1
            exact ⟨by simp, by intro x hx; simp at hx; subst hx; exact hc⟩
          · exact ih w h2
        · rw [Bool.not_eq_true] at hd
          cases hw0 : pyWords (d :: t) with
          | nil => exact absurd hw0 (pyWords_ne_nil hd t)
          | cons w0 ws0 =>
            rw [pyWords_cons_cons_nonspace hc hd _ hw0]
            intro w hw
            rcases List.mem_cons.mp hw with h1 | h2
            · subst h1
              have hw0good := ih w0 (by rw [hw0]; exact List.mem_cons_self w0 ws0)
              refine ⟨by simp, ?_⟩
              intro x hx
              rcases List.mem_cons.mp hx with hx1 | hx2
              · subst hx1; exact hc
              · exact hw0good.2 x hx2
            · exact ih w (by rw [hw0]; exact List.mem_cons_of_mem w0 h2)

theorem splitOn2_ne_nil (s : Str) : splitOn2 s ≠ [] := by
  match s with
  | [] => simp [splitOn2]
  | [c] => simp [splitOn2]
  | c :: d :: t =>
    by_cases h : c = '\n' ∧ d = '\n'
    · simp [splitOn2, h]
    · cases hq : splitOn2 (d :: t) with
      | nil => simp [splitOn2, h, hq]
      | cons q qs => simp [splitOn2, h, hq]

theorem splitOn2_head_structure (d : Char) (t : Str) {q : Str} {qs : List Str}
    (h : splitOn2 (d :: t) = q :: qs) :
    (∃ q0, q = d :: q0) ∨ (q = [] ∧ d = '\n') := by
  cases t with
  | nil =>
    simp [splitOn2] at h
    exact Or.inl ⟨[], h.1.symm⟩
  | cons e t' =>
    by_cases hde : d = '\n' ∧ e = '\n'
    · simp [splitOn2, hde] at h
      exact Or.inr ⟨h.1, hde.1⟩
    · cases hq : splitOn2 (e :: t') with
      | nil => exact absurd hq (splitOn2_ne_nil _)
      | cons q1 qs1 =>
        simp [splitOn2, hde, hq] at h
        exact Or.inl ⟨q1, h.1.symm⟩

theorem nl_isSpace : isSpace '\n' = true := rfl

theorem joinWords_splitOn2 (s : Str) : ((splitOn2 s).map pyWords).flatten = pyWords s := by
  have key : ∀ n, ∀ s : Str, s.length ≤ n → ((splitOn2 s).map pyWords).flatten = pyWords s := by
    intro n
    induction n with
    | zero =>
      intro s hs
      have : s = [] := List.length_eq_zero.mp (Nat.le_zero.mp hs)
      subst this
      simp [splitOn2, pyWords_nil]
    | succ n ih =>
      intro s hs
      match s with
      | [] => simp [splitOn2, pyWords_nil]
      | [c] => simp [splitOn2]
      | c :: d :: t =>
        by_cases hg : c = '\n' ∧ d = '\n'
        · have hlt : t.length ≤ n := by
            simp at hs
            omega
          rw [hg.1, hg.2]
          show ((splitOn2 ('\n' :: '\n' :: t)).map pyWords).flatten = pyWords ('\n' :: '\n' :: t)
          rw [pyWords_cons_space nl_isSpace, pyWords_cons_space nl_isSpace]
          simp only [splitOn2, and_self, if_true, List.map_cons, List.flatten_cons, pyWords_nil,
            List.nil_append]
          exact ih t hlt
        · have hlt : (d :: t).length ≤ n := by
            simp at hs ⊢
            omega
          cases hq : splitOn2 (d :: t) with
          | nil => exact absurd hq (splitOn2_ne_nil _)
          | cons q qs =>
            have hsplit : splitOn2 (c :: d :: t) = (c :: q) :: qs := by
              simp [splitOn2, hg, hq]
            have ihdt : pyWords q ++ (qs.map pyWords).flatten = pyWords (d :: t) := by
              have := ih (d :: t) hlt
              rw [hq] at this
              simpa using this
            rw [hsplit]
            simp only [List.map_cons, List.flatten_cons]
            by_cases hc : isSpace c = true
            · rw [pyWords_cons_space hc, pyWords_cons_space hc, ← ihdt]
            · rw [Bool.not_eq_true] at hc
              by_cases hd : isSpace d = true
              · rw [pyWords_cons_cons_space hc hd]
                rcases splitOn2_head_structure d t hq with ⟨q0, hq0⟩ | ⟨hqnil, _⟩
                · subst hq0
                  rw [pyWords_cons_cons_space hc hd, ← ihdt]
                  simp
                · subst hqnil
                  rw [pyWords_singleton hc]
                  rw [pyWords_nil, List.nil_append] at ihdt
                  rw [ihdt]
                  simp
              · rw [Bool.not_eq_true] at hd
                have hqne : ∃ q0, q = d :: q0 := by
                  rcases splitOn2_head_structure d t hq with h1 | ⟨_, hdn⟩
                  · exact h1
                  · subst hdn
                    exact absurd hd (by decide)
                obtain ⟨q0, hq0⟩ := hqne
                subst hq0
                cases hw : pyWords (d :: q0) with
                | nil => exact absurd hw (pyWords_ne_nil hd q0)
                | cons w ws =>
                  rw [pyWords_cons_cons_nonspace hc hd _ hw]
                  have hdt : pyWords (d :: t) = w :: (ws ++ (qs.map pyWords).flatten) := by
                    rw [← ihdt, hw]
                    simp
                  rw [pyWords_cons_cons_nonspace hc hd _ hdt]
                  simp
  exact key s.length s le_rfl

theorem allSpace_space : AllSpace [' '] := by
  intro c hc
  simp at hc
  subst hc
  rfl

theorem allSpace_nl2 : AllSpace nl2 := by
  intro c hc
  simp [nl2] at hc
  subst hc
  rfl

theorem goodCur_last {size : Nat} {cur : Str} (h : GoodCur size cur) :
    ∀ d, cur.getLast? = some d → isSpace d = true := by
  rcases h with h | ⟨⟨d0, hd0, hsp⟩, _⟩
  · subst h
    intro d hd
    simp at hd
  · intro d hd
    rw [hd0] at hd
    injection hd with hh
    rw [← hh]
    exact hsp

theorem strip_ne_nil_of_mem_nonspace {s : Str} {c : Char} (hc : c ∈ s)
    (hns : isSpace c = false) : strip s ≠ [] := by
  intro h
  have := strip_eq_nil_iff.mp h c hc
  rw [this] at hns
  exact Bool.true_eq_false.mp hns

theorem pyWords_snoc_word {cur w : Str}
    (hcur : ∀ d, cur.getLast? = some d → isSpace d = true)
    (hw : w ≠ []) (hwf : ∀ c ∈ w, isSpace c = false) :
    pyWords (cur ++ w ++ [' ']) = pyWords cur ++ [w] := by
  rw [List.append_assoc, pyWords_append_of_last_space _ cur hcur,
    pyWords_append_allSpace allSpace_space, pyWords_wsFree hw hwf]

theorem pyWords_word_space {w : Str} (hw : w ≠ []) (hwf : ∀ c ∈ w, isSpace c = false) :
    pyWords (w ++ [' ']) = [w] := by
  rw [pyWords_append_allSpace allSpace_space, pyWords_wsFree hw hwf]

theorem pyWords_snoc_para {cur p : Str}
    (hcur : ∀ d, cur.getLast? = some d → isSpace d = true) :
    pyWords (cur ++ strip p ++ nl2) = pyWords cur ++ pyWords p := by
  rw [List.append_assoc, pyWords_append_of_last_space _ cur hcur,
    pyWords_append_allSpace allSpace_nl2, pyWords_strip]

theorem flatten_flush {size : Nat} (chunks : List Str) (cur : Str)
    (hcur : GoodCur size cur) :
    (((if cur = [] then chunks else chunks ++ [strip cur]).map pyWords).flatten
      = (chunks.map pyWords).flatten ++ pyWords cur) := by
  by_cases h : cur = []
  · subst h
    simp [pyWords_nil]
  · rw [if_neg h]
    simp [pyWords_strip]

theorem flush_good {size : Nat} {chunks : List Str} {cur : Str}
    (hchunks : ∀ c ∈ chunks, GoodChunk size c) (hcur : GoodCur size cur) :
    ∀ c ∈ (if cur = [] then chunks else chunks ++ [strip cur]), GoodChunk size c := by
  by_cases h : cur = []
  · rw [if_pos h]
    exact hchunks
  · rw [if_neg h]
    intro c hc
    rcases List.mem_append.mp hc with h1 | h2
    · exact hchunks c h1
    · simp at h2
      subst h2
      rcases hcur with hnil | ⟨_, hgood⟩
      · exact absurd hnil h
      · exact hgood

theorem wordLoop_inv (size : Nat) :
    ∀ (ws : List Str) (chunks : List Str) (cur : Str),
      (∀ w ∈ ws, w ≠ [] ∧ ∀ c ∈ w, isSpace c = false) →
      (∀ c ∈ chunks, GoodChunk size c) →
      GoodCur size cur →
      (∀ c ∈ (wordLoop size ws chunks cur).1, GoodChunk size c) ∧
      GoodCur size (wordLoop size ws chunks cur).2 ∧
      (((wordLoop size ws chunks cur).1.map pyWords).flatten
          ++ pyWords (wordLoop size ws chunks cur).2
        = (chunks.map pyWords).flatten ++ pyWords cur ++ ws) := by
  intro ws
  induction ws with
  | nil =>
    intro chunks cur _ hchunks hcur
    exact ⟨hchunks, hcur, by simp [wordLoop]⟩
  | cons w ws ih =>
    intro chunks cur hws hchunks hcur
    have hwgood := hws w (List.mem_cons_self w ws)
    have hwrest : ∀ x ∈ ws, x ≠ [] ∧ ∀ c ∈ x, isSpace c = false :=
      fun x hx => hws x (List.mem_cons_of_mem w hx)
    by_cases hov : size < cur.length + w.length
    · -- overflow: flush the buffer (if non-empty), restart with the word
      have hstep : wordLoop size (w :: ws) chunks cur =
          wordLoop size ws (if cur = [] then chunks else chunks ++ [strip cur]) (w ++ [' ']) := by
        rw [wordLoop, if_pos hov]
      have hcur' : GoodCur size (w ++ [' ']) := by
        refine Or.inr ⟨⟨' ', by simp, rfl⟩, ?_⟩
        rw [strip_append_allSpace allSpace_space, strip_wsFree hwgood.2]
        exact ⟨hwgood.1, Or.inr hwgood.2⟩
      have hchunks' := flush_good hchunks hcur
      obtain ⟨g1, g2, g3⟩ := ih _ (w ++ [' ']) hwrest hchunks' hcur'
      rw [hstep]
      refine ⟨g1, g2, ?_⟩
      rw [g3, flatten_flush chunks cur hcur, pyWords_word_space hwgood.1 hwgood.2]
      simp
    · -- the word fits: append it to the buffer
      have hstep : wordLoop size (w :: ws) chunks cur =
          wordLoop size ws chunks (cur ++ w ++ [' ']) := by
        rw [wordLoop, if_neg hov]
      have hlast : ∀ d, cur.getLast? = some d → isSpace d = true := goodCur_last hcur
      have hcur' : GoodCur size (cur ++ w ++ [' ']) := by
        refine Or.inr ⟨⟨' ', by simp, rfl⟩, ?_, ?_⟩
        · rw [List.append_assoc]
          refine strip_ne_nil_of_mem_nonspace ?_
            (hwgood.2 (w.head hwgood.1) (List.head_mem hwgood.1))
          exact List.mem_append.mpr (Or.inr (List.mem_append.mpr
            (Or.inl (List.head_mem hwgood.1))))
        · left
          calc (strip (cur ++ w ++ [' '])).length
              = (strip (cur ++ w)).length := by
                rw [List.append_assoc, ← List.append_assoc,
                  strip_append_allSpace allSpace_space]
            _ ≤ (cur ++ w).length := strip_length_le _
            _ = cur.length + w.length := List.length_append _ _
            _ ≤ size := Nat.le_of_not_lt hov
      obtain ⟨g1, g2, g3⟩ := ih chunks (cur ++ w ++ [' ']) hwrest hchunks hcur'
      rw [hstep]
      refine ⟨g1, g2, ?_⟩
      rw [g3, pyWords_snoc_word hlast hwgood.1 hwgood.2]
      simp

theorem paraLoop_cons (size : Nat) (p : Str) (ps : List Str) (chunks : List Str) (cur : Str) :
    paraLoop size (p :: ps) chunks cur =
      (if strip p = [] then paraLoop size ps chunks cur
       else if size < cur.length + (strip p).length then
         (if size < (strip p).length then
            paraLoop size ps
              (wordLoop size (pyWords (strip p))
                (if cur = [] then chunks else chunks ++ [strip cur]) []).1
              (wordLoop size (pyWords (strip p))
                (if cur = [] then chunks else chunks ++ [strip cur]) []).2
          else paraLoop size ps (if cur = [] then chunks else chunks ++ [strip cur])
            (strip p ++ nl2))
       else paraLoop size ps chunks (cur ++ strip p ++ nl2)) := rfl

theorem getLast_append_nl2 (x : Str) : ∃ d, (x ++ nl2).getLast? = some d ∧ isSpace d = true := by
  refine ⟨'\n', ?_, rfl⟩
  have : x ++ nl2 = (x ++ ['\n']) ++ ['\n'] := by simp [nl2]
  rw [this]
  simp

theorem paraLoop_inv (size : Nat) :
    ∀ (ps : List Str) (chunks : List Str) (cur : Str),
      (∀ c ∈ chunks, GoodChunk size c) →
      GoodCur size cur →
      (∀ c ∈ (paraLoop size ps chunks cur).1, GoodChunk size c) ∧
      GoodCur size (paraLoop size ps chunks cur).2 ∧
      (((paraLoop size ps chunks cur).1.map pyWords).flatten
          ++ pyWords (paraLoop size ps chunks cur).2
        = (chunks.map pyWords).flatten ++ pyWords cur ++ (ps.map pyWords).flatten) := by
  intro ps
  induction ps with
  | nil =>
    intro chunks cur hchunks hcur
    exact ⟨hchunks, hcur, by simp [paraLoop]⟩
  | cons p ps ih =>
    intro chunks cur hchunks hcur
    by_cases hpe : strip p = []
    · -- blank paragraph: skipped, and it contributes no words
      have hwp : pyWords p = [] := pyWords_allSpace (strip_eq_nil_iff.mp hpe)
      rw [paraLoop_cons, if_pos hpe]
      obtain ⟨g1, g2, g3⟩ := ih chunks cur hchunks hcur
      exact ⟨g1, g2, by rw [g3]; simp [hwp]⟩
    · by_cases hov : size < cur.length + (strip p).length
      · by_cases hbig : size < (strip p).length
        · -- oversized paragraph: flush, then word-level accumulation
          rw [paraLoop_cons, if_neg hpe, if_pos hov, if_pos hbig]
          have hchunks1 : ∀ c ∈ (if cur = [] then chunks else chunks ++ [strip cur]),
              GoodChunk size c := flush_good hchunks hcur
          obtain ⟨w1, w2, w3⟩ := wordLoop_inv size (pyWords (strip p)) _ []
            (pyWords_words_good (strip p)) hchunks1 (Or.inl rfl)
          obtain ⟨g1, g2, g3⟩ := ih _ _ w1 w2
          refine ⟨g1, g2, ?_⟩
          rw [g3, w3, flatten_flush chunks cur hcur, pyWords_nil, pyWords_strip]
          simp
        · -- paragraph exceeds the space left in the buffer but fits alone:
          -- flush, restart the buffer with this paragraph
          rw [paraLoop_cons, if_neg hpe, if_pos hov, if_neg hbig]
          have hchunks1 : ∀ c ∈ (if cur = [] then chunks else chunks ++ [strip cur]),
              GoodChunk size c := flush_good hchunks hcur
          have hcur' : GoodCur size (strip p ++ nl2) := by
            refine Or.inr ⟨getLast_append_nl2 _, ?_, Or.inl ?_⟩
            · rw [strip_append_allSpace allSpace_nl2]
              exact strip_strip_ne_nil hpe
            · calc (strip (strip p ++ nl2)).length
                  = (strip (strip p)).length := by rw [strip_append_allSpace allSpace_nl2]
                _ ≤ (strip p).length := strip_length_le _
                _ ≤ size := Nat.le_of_not_lt hbig
          obtain ⟨g1, g2, g3⟩ := ih _ _ hchunks1 hcur'
          refine ⟨g1, g2, ?_⟩
          rw [g3, flatten_flush chunks cur hcur,
            pyWords_append_allSpace allSpace_nl2, pyWords_strip]
          simp
      · -- paragraph fits: append it to the buffer
        rw [paraLoop_cons, if_neg hpe, if_neg hov]
        obtain ⟨c0, hc0, hc0ns⟩ := strip_not_allSpace hpe
        have hcur' : GoodCur size (cur ++ strip p ++ nl2) := by
          refine Or.inr ⟨getLast_append_nl2 _, ?_, Or.inl ?_⟩
          · rw [List.append_assoc, ← List.append_assoc,
              strip_append_allSpace allSpace_nl2]
            exact strip_ne_nil_of_mem_nonspace
              (List.mem_append.mpr (Or.inr hc0)) hc0ns
          · calc (strip (cur ++ strip p ++ nl2)).length
                = (strip (cur ++ strip p)).length := by
                  rw [List.append_assoc, ← List.append_assoc,
                    strip_append_allSpace allSpace_nl2]
              _ ≤ (cur ++ strip p).length := strip_length_le _
              _ = cur.length + (strip p).length := List.length_append _ _
              _ ≤ size := Nat.le_of_not_lt hov
        obtain ⟨g1, g2, g3⟩ := ih chunks _ hchunks hcur'
        refine ⟨g1, g2, ?_⟩
        rw [g3, pyWords_snoc_para (goodCur_last hcur)]
        simp

theorem chunk_text_eq (size : Nat) (text : Str) :
    chunk_text size text =
      if strip text = [] then []
      else
        if strip (paraLoop size (splitOn2 (strip text)) [] []).2 = []
        then (paraLoop size (splitOn2 (strip text)) [] []).1
        else (paraLoop size (splitOn2 (strip text)) [] []).1
          ++ [strip (paraLoop size (splitOn2 (strip text)) [] []).2] := rfl

/-- C4: for every input text, `KnowledgeLoader.chunk_text` produces an
ordered sequence of chunks in which every chunk is non-empty and has length
at most the configured 1000-character budget, except that a chunk may exceed
the budget only when it is a single whitespace-free word that alone exceeds
it; and empty or whitespace-only input yields the empty sequence (a
non-empty trailing buffer being flushed as the final chunk is the final
branch of the definition, whose emitted chunk is covered by the same
bound). -/
theorem chunk_text_bounds (text : Str) :
    (∀ c ∈ chunk_text chunk_size text,
      c ≠ [] ∧ (c.length ≤ chunk_size ∨
        (chunk_size < c.length ∧ ∀ ch ∈ c, isSpace ch = false)))
    ∧ (strip text = [] → chunk_text chunk_size text = []) := by
  constructor
  · intro c hc
    by_cases hte : strip text = []
    · rw [chunk_text_eq, if_pos hte] at hc
      simp at hc
    · rw [chunk_text_eq, if_neg hte] at hc
      obtain ⟨g1, g2, _⟩ := paraLoop_inv chunk_size (splitOn2 (strip text)) [] []
        (by intro x hx; simp at hx) (Or.inl rfl)
      have hgood : GoodChunk chunk_size c := by
        by_cases hl : strip (paraLoop chunk_size (splitOn2 (strip text)) [] []).2 = []
        · rw [if_pos hl] at hc
          exact g1 c hc
        · rw [if_neg hl] at hc
          rcases List.mem_append.mp hc with h1 | h2
          · exact g1 c h1
          · simp at h2
            subst h2
            rcases g2 with hnil | ⟨_, hgood⟩
            · rw [hnil] at hl
              exact absurd rfl hl
            · exact hgood
      refine ⟨hgood.1, ?_⟩
      rcases hgood.2 with h | h
      · exact Or.inl h
      · by_cases hlen : c.length ≤ chunk_size
        · exact Or.inl hlen
        · exact Or.inr ⟨Nat.lt_of_not_le hlen, h⟩
  · intro hte
    rw [chunk_text_eq, if_pos hte]

/-- Witness for C4 at a concrete input: chunking the text "hello" yields the
single chunk "hello", which satisfies the bound contract. -/
theorem chunk_text_bounds_witness :
    "hello".toList ≠ [] ∧
      ("hello".toList.length ≤ chunk_size ∨
        (chunk_size < "hello".toList.length ∧
          ∀ ch ∈ "hello".toList, isSpace ch = false)) :=
  (chunk_text_bounds "hello".toList).1 "hello".toList (by decide)

/-- C8: concatenating the chunks produced by `chunk_text` in word order
reproduces exactly the whitespace-separated words of the input, in their
original order — chunking neither drops, duplicates, nor reorders any word.
Chunks are whitespace-stripped, so the concatenation is taken at word
granularity: the word sequences of the chunks, concatenated in chunk order
(equivalently, splitting the chunks re-joined with a one-space separator),
equal the word sequence of the input. -/
theorem chunk_text_preserves_words (size : Nat) (text : Str) :
    ((chunk_text size text).map pyWords).flatten = pyWords text := by
  by_cases hte : strip text = []
  · rw [chunk_text_eq, if_pos hte, ← pyWords_strip text, hte]
    simp [pyWords_nil]
  · rw [chunk_text_eq, if_neg hte]
    obtain ⟨_, _, g3⟩ := paraLoop_inv size (splitOn2 (strip text)) [] []
      (by intro x hx; simp at hx) (Or.inl rfl)
    rw [joinWords_splitOn2, pyWords_strip, pyWords_nil] at g3
    simp only [List.map_nil, List.flatten_nil, List.nil_append] at g3
    by_cases hl : strip (paraLoop size (splitOn2 (strip text)) [] []).2 = []
    · rw [if_pos hl]
      have : pyWords (paraLoop size (splitOn2 (strip text)) [] []).2 = [] := by
        rw [← pyWords_strip, hl, pyWords_nil]
      rw [this, List.append_nil] at g3
      exact g3
    · rw [if_neg hl]
      rw [List.map_append, List.flatten_append]
      simp only [List.map_cons, List.map_nil, List.flatten_cons, List.flatten_nil,
        List.append_nil]
      rw [pyWords_strip]
      exact g3

theorem format_loop_cons (maxL : Int) (r : KSResult) (rs : List KSResult)
    (parts : List Str) (total : Int) :
    format_loop maxL (r :: rs) parts total =
      if maxL < total + (buildContent r).length then
        (if 100 < maxL - total
         then parts ++ [(buildContent r).take (maxL - total).toNat ++ dots]
         else parts)
      else format_loop maxL rs (parts ++ [buildContent r])
        (total + (buildContent r).length + 10) := rfl

theorem fitCount_cons (maxL : Int) (r : KSResult) (rs : List KSResult) (total : Int) :
    fitCount maxL (r :: rs) total =
      if maxL < total + (buildContent r).length then 0
      else 1 + fitCount maxL rs (total + (buildContent r).length + 10) := rfl

theorem fitTotal_cons (maxL : Int) (r : KSResult) (rs : List KSResult) (total : Int) :
    fitTotal maxL (r :: rs) total =
      if maxL < total + (buildContent r).length then total
      else fitTotal maxL rs (total + (buildContent r).length + 10) := rfl

theorem format_loop_closed (maxL : Int) :
    ∀ (rs : List KSResult) (parts : List Str) (total : Int),
      format_loop maxL rs parts total =
        parts ++ (rs.take (fitCount maxL rs total)).map buildContent
          ++ overflowTail maxL rs total := by
  intro rs
  induction rs with
  | nil =>
    intro parts total
    simp [format_loop, fitCount, overflowTail]
  | cons r rs ih =>
    intro parts total
    by_cases hov : maxL < total + (buildContent r).length
    · have hfc : fitCount maxL (r :: rs) total = 0 := by rw [fitCount_cons, if_pos hov]
      have hft : fitTotal maxL (r :: rs) total = total := by rw [fitTotal_cons, if_pos hov]
      have hot : overflowTail maxL (r :: rs) total =
          if 100 < maxL - total
          then [(buildContent r).take (maxL - total).toNat ++ dots]
          else [] := by
        unfold overflowTail
        rw [hfc, hft]
        rfl
      rw [format_loop_cons, if_pos hov, hfc, hot]
      by_cases hrem : 100 < maxL - total
      · rw [if_pos hrem, if_pos hrem]
        simp
      · rw [if_neg hrem, if_neg hrem]
        simp
    · have hfc : fitCount maxL (r :: rs) total =
          1 + fitCount maxL rs (total + (buildContent r).length + 10) := by
        rw [fitCount_cons, if_neg hov]
      have hft : fitTotal maxL (r :: rs) total =
          fitTotal maxL rs (total + (buildContent r).length + 10) := by
        rw [fitTotal_cons, if_neg hov]
      have hot : overflowTail maxL (r :: rs) total =
          overflowTail maxL rs (total + (buildContent r).length + 10) := by
        unfold overflowTail
        rw [hfc, hft, Nat.add_comm 1 _, List.drop_succ_cons]
      rw [format_loop_cons, if_neg hov, ih, hfc, hot,
        Nat.add_comm 1 _, List.take_succ_cons]
      simp

set_option maxRecDepth 8000 in
/-- C5 (amended): `format_context` concatenates the built items (each the
stripped content prefixed with its source label when present) in order,
joined by the visible separator; the first item whose inclusion would push
the separator-accounted cumulative length past `max_length` is included
truncated with an ellipsis appended only when the remaining budget
`max_length - total_length` exceeds 100 characters (otherwise it is
dropped), and every item after the first overflowing item is dropped
entirely.  The first conjunct is the closed form (`fitCount` whole items,
then `overflowTail`, which holds the ellipsis-truncated overflowing item
exactly when more than 100 characters of budget remain); the second exhibits
the ellipsis-truncation behaviour concretely. -/
theorem format_context_spec :
    (∀ (results : List KSResult) (maxL : Int), results ≠ [] →
      format_context results maxL =
        joinSep ((results.take (fitCount maxL results 0)).map buildContent
          ++ overflowTail maxL results 0)) ∧
    format_context [⟨List.replicate 150 'a', none, 0⟩] 120
      = List.replicate 120 'a' ++ dots := by
  constructor
  · intro results maxL hne
    unfold format_context
    rw [if_neg hne, format_loop_closed]
    simp
  · decide

/-- Witness for C5: the closed form instantiated at a concrete single-result
list within budget. -/
theorem format_context_spec_witness :
    format_context [⟨"abc".toList, none, 0⟩] 50 =
      joinSep ((([⟨"abc".toList, none, 0⟩] : List KSResult).take
          (fitCount 50 [⟨"abc".toList, none, 0⟩] 0)).map buildContent
        ++ overflowTail 50 [⟨"abc".toList, none, 0⟩] 0) :=
  format_context_spec.1 [⟨"abc".toList, none, 0⟩] 50 (by decide)

/-- C5 counterexample to the claim as stated: with `max_length = 100`, a
first item of 60 characters is included whole (running total becomes 70),
and the second item (60 characters) overflows with remaining budget
30 ≤ 100 — the code drops it entirely (output is exactly the first item,
with no ellipsis anywhere), whereas the claim states the first overflowing
item "is included truncated with an ellipsis appended". -/
theorem format_context_small_remainder_counterexample :
    format_context
        [⟨List.replicate 60 'a', none, 0⟩, ⟨List.replicate 60 'b', none, 0⟩] 100
      = List.replicate 60 'a' ∧
    dots.isSuffixOf (format_context
        [⟨List.replicate 60 'a', none, 0⟩, ⟨List.replicate 60 'b', none, 0⟩] 100)
      = false := by
  decide

theorem joinSep_cons_cons (p x : Str) (rest : List Str) :
    joinSep (p :: x :: rest) = p ++ ctxSep ++ joinSep (x :: rest) := rfl

theorem joinSep_snoc (parts : List Str) (q : Str) :
    joinSep (parts ++ [q]) =
      if parts = [] then q else joinSep parts ++ ctxSep ++ q := by
  induction parts with
  | nil => simp [joinSep]
  | cons p ps ih =>
    cases ps with
    | nil => simp [joinSep]
    | cons p2 ps2 =>
      rw [List.cons_append, List.cons_append, joinSep_cons_cons,
        ← List.cons_append, ih, if_neg (by simp), if_neg (by simp),
        joinSep_cons_cons]
      simp [List.append_assoc]

theorem joinSep_parts_bound (maxL : Int) (hm : -3 ≤ maxL) (parts : List Str)
    (total : Int)
    (hinv : (parts = [] ∧ total = 0) ∨
      (parts ≠ [] ∧ ((joinSep parts).length : Int) + 3 * parts.length + 7 = total ∧
        total ≤ maxL + 10)) :
    ((joinSep parts).length : Int) ≤ maxL + 3 := by
  rcases hinv with ⟨hp, _⟩ | ⟨hp, heq, hle⟩
  · subst hp
    show ((0 : Nat) : Int) ≤ maxL + 3
    omega
  · have h1 : 0 < parts.length := List.length_pos.mpr hp
    omega

theorem format_loop_length (maxL : Int) (hm : -3 ≤ maxL) :
    ∀ (rs : List KSResult) (parts : List Str) (total : Int),
      ((parts = [] ∧ total = 0) ∨
        (parts ≠ [] ∧ ((joinSep parts).length : Int) + 3 * parts.length + 7 = total ∧
          total ≤ maxL + 10)) →
      ((joinSep (format_loop maxL rs parts total)).length : Int) ≤ maxL + 3 := by
  intro rs
  induction rs with
  | nil =>
    intro parts total hinv
    exact joinSep_parts_bound maxL hm parts total hinv
  | cons r rs ih =>
    intro parts total hinv
    rw [format_loop_cons]
    by_cases hov : maxL < total + (buildContent r).length
    · rw [if_pos hov]
      by_cases hrem : 100 < maxL - total
      · rw [if_pos hrem, joinSep_snoc]
        have hqlen : (((buildContent r).take (maxL - total).toNat ++ dots).length : Int)
            ≤ (maxL - total) + 3 := by
          rw [List.length_append, List.length_take]
          have h1 : min (maxL - total).toNat (buildContent r).length
              ≤ (maxL - total).toNat := Nat.min_le_left _ _
          have h2 : ((maxL - total).toNat : Int) = maxL - total :=
            Int.toNat_of_nonneg (by omega)
          have h3 : (dots.length : Int) = 3 := by decide
          push_cast
          omega
        by_cases hp : parts = []
        · rw [if_pos hp]
          have ht : total = 0 := by
            rcases hinv with ⟨_, h⟩ | ⟨hpne, _, _⟩
            · exact h
            · exact absurd hp hpne
          omega
        · rw [if_neg hp]
          rcases hinv with ⟨hpe, _⟩ | ⟨_, heq, hle⟩
          · exact absurd hpe hp
          · have h1 : 0 < parts.length := List.length_pos.mpr hp
            rw [List.length_append, List.length_append]
            have h4 : (ctxSep.length : Int) = 7 := by decide
            push_cast
            omega
      · rw [if_neg hrem]
        exact joinSep_parts_bound maxL hm parts total hinv
    · rw [if_neg hov]
      apply ih
      right
      refine ⟨by simp, ?_, by omega⟩
      rw [joinSep_snoc]
      by_cases hp : parts = []
      · rw [if_pos hp]
        have ht : total = 0 := by
          rcases hinv with ⟨_, h⟩ | ⟨hpne, _, _⟩
          · exact h
          · exact absurd hp hpne
        subst hp
        simp only [List.nil_append, List.length_singleton]
        push_cast
        omega
      · rw [if_neg hp]
        rcases hinv with ⟨hpe, _⟩ | ⟨_, heq, _⟩
        · exact absurd hpe hp
        · simp only [List.length_append, List.length_singleton]
          have h4 : (ctxSep.length : Int) = 7 := by decide
          push_cast
          omega

/-- C9 (amended): for every list of search results and every
`max_length ≥ -3` (in particular every non-negative `max_length`), the
string returned by `format_context` has length at most `max_length` plus
the three-character ellipsis marker. -/
theorem format_context_length_bound (results : List KSResult) (maxL : Int)
    (hm : -3 ≤ maxL) :
    ((format_context results maxL).length : Int) ≤ maxL + 3 := by
  unfold format_context
  by_cases hne : results = []
  · rw [if_pos hne]
    show ((0 : Nat) : Int) ≤ maxL + 3
    omega
  · rw [if_neg hne]
    exact format_loop_length maxL hm results [] 0 (Or.inl ⟨rfl, rfl⟩)

/-- Witness for C9 at a concrete input. -/
theorem format_context_length_bound_witness :
    (-3 : Int) ≤ 100 ∧
      ((format_context [⟨List.replicate 60 'a', none, 0⟩] 100).length : Int) ≤ 100 + 3 :=
  ⟨by decide, format_context_length_bound [⟨List.replicate 60 'a', none, 0⟩] 100 (by decide)⟩

/-- C9 counterexample to the claim as stated over every integer
`max_length`: at `max_length = -4` the output is empty (length 0), yet the
claimed bound demands length at most `-4 + 3 = -1`. -/
theorem format_context_negative_budget_counterexample :
    ¬ (((format_context [⟨"hello".toList, none, 0⟩] (-4)).length : Int) ≤ -4 + 3) := by
  decide

theorem dayStart_le (t : Nat) : dayStart t ≤ t := Nat.div_mul_le_self t secondsPerDay

theorem countSince_append_single (s : List UsageRec) (uid : Int) (d : Nat) (r : UsageRec) :
    countSince (s ++ [r]) uid d =
      countSince s uid d +
        (if r.telegram_id == uid && decide (d ≤ r.created_at) then 1 else 0) := by
  unfold countSince
  rw [List.countP_append]
  simp [List.countP_cons]

theorem countSince_append_self (s : List UsageRec) (uid : Int) (d : Nat) (t : Nat)
    (m : Option Str) (hd : d ≤ t) :
    countSince (s ++ [⟨uid, t, m⟩]) uid d = countSince s uid d + 1 := by
  rw [countSince_append_single]
  simp [hd]

theorem check_and_log_allowed_eq (s : List UsageRec) (uid : Int) (msg : Option Str)
    (now : Nat) (quota : Nat) (h : countSince s uid (dayStart now) < quota) :
    check_and_log (.ok ()) (.ok ()) (.ok ()) s uid msg now quota =
      (s ++ [⟨uid, now, truncExcerpt msg⟩], true, .empty,
        max 0 ((quota : Int) - (countSince s uid (dayStart now) + 1))) := by
  unfold check_and_log
  rw [if_neg (by simp [is_rate_limited, get_today_count]; omega)]
  show (s ++ [⟨uid, now, truncExcerpt msg⟩], true, RLMessage.empty,
      get_remaining_messages (.ok ()) (s ++ [⟨uid, now, truncExcerpt msg⟩]) uid now quota) = _
  unfold get_remaining_messages get_today_count
  rw [countSince_append_self s uid (dayStart now) now (truncExcerpt msg) (dayStart_le now)]
  push_cast
  rfl

theorem check_and_log_rejected_eq (s : List UsageRec) (uid : Int) (msg : Option Str)
    (now : Nat) (quota : Nat) (h : quota ≤ countSince s uid (dayStart now)) :
    check_and_log (.ok ()) (.ok ()) (.ok ()) s uid msg now quota =
      (s, false, .exhausted quota, 0) := by
  unfold check_and_log
  rw [if_pos (by simp [is_rate_limited, get_today_count]; omega)]

theorem runCalls_cons (quota : Nat) (uid : Int) (msg : Option Str) (t : Nat)
    (ts : List Nat) (s : List UsageRec) :
    runCalls quota uid msg (t :: ts) s =
      ((runCalls quota uid msg ts
          (check_and_log (.ok ()) (.ok ()) (.ok ()) s uid msg t quota).1).1,
        ((check_and_log (.ok ()) (.ok ()) (.ok ()) s uid msg t quota).2.1,
         (check_and_log (.ok ()) (.ok ()) (.ok ()) s uid msg t quota).2.2.2) ::
        (runCalls quota uid msg ts
          (check_and_log (.ok ()) (.ok ()) (.ok ()) s uid msg t quota).1).2) := rfl

theorem runCalls_inv (quota : Nat) (uid : Int) (msg : Option Str) (d : Nat) :
    ∀ (times : List Nat) (s : List UsageRec) (k : Nat),
      countSince s uid d = k →
      k + times.length ≤ quota →
      (∀ t ∈ times, dayStart t = d) →
      (∀ res ∈ (runCalls quota uid msg times s).2, res.1 = true) ∧
      countSince (runCalls quota uid msg times s).1 uid d = k + times.length := by
  intro times
  induction times with
  | nil =>
    intro s k hk _ _
    exact ⟨by intro res hres; simp [runCalls] at hres, by simpa [runCalls] using hk⟩
  | cons t ts ih =>
    intro s k hk hle hdays
    have htd : dayStart t = d := hdays t (List.mem_cons_self t ts)
    have hklt : countSince s uid (dayStart t) < quota := by
      rw [htd, hk]
      simp at hle
      omega
    have hstep := check_and_log_allowed_eq s uid msg t quota hklt
    have hcount1 : countSince
        (check_and_log (.ok ()) (.ok ()) (.ok ()) s uid msg t quota).1 uid d = k + 1 := by
      rw [hstep]
      show countSince (s ++ [⟨uid, t, truncExcerpt msg⟩]) uid d = k + 1
      rw [countSince_append_self s uid d t (truncExcerpt msg)
        (by rw [← htd]; exact dayStart_le t), hk]
    obtain ⟨g1, g2⟩ := ih _ (k + 1) hcount1
      (by simp at hle ⊢; omega)
      (fun x hx => hdays x (List.mem_cons_of_mem t hx))
    constructor
    · intro res hres
      rw [runCalls_cons] at hres
      rcases List.mem_cons.mp hres with h1 | h2
      · rw [h1, hstep]
      · exact g1 res h2
    · rw [runCalls_cons]
      show countSince (runCalls quota uid msg ts
          (check_and_log (.ok ()) (.ok ()) (.ok ()) s uid msg t quota).1).1 uid d
        = k + (t :: ts).length
      rw [g2]
      simp only [List.length_cons]
      omega

/-- C1: for every user and UTC day, `RateLimiter.check_and_log` (all store
calls succeeding) computes the user's count of usage records since 00:00
UTC; if that count is at least the quota it returns not-allowed with the
quota-exhausted message and remaining 0 and appends no record; otherwise it
appends exactly one record carrying the excerpt truncated to 500 characters,
recomputes, and returns allowed with remaining `max 0 (quota - newCount)`.
Consequently, starting from a store with no records of the user in the
current UTC day, after exactly `quota` allowed calls within that day the
next call in the same day is rejected with remaining 0. -/
theorem check_and_log_spec (s : List UsageRec) (uid : Int) (msg : Option Str)
    (now : Nat) (quota : Nat) :
    (quota ≤ countSince s uid (dayStart now) →
      check_and_log (.ok ()) (.ok ()) (.ok ()) s uid msg now quota =
        (s, false, .exhausted quota, 0)) ∧
    (countSince s uid (dayStart now) < quota →
      check_and_log (.ok ()) (.ok ()) (.ok ()) s uid msg now quota =
        (s ++ [⟨uid, now, truncExcerpt msg⟩], true, .empty,
          max 0 ((quota : Int) - (countSince s uid (dayStart now) + 1)))) ∧
    (∀ (times : List Nat) (s0 : List UsageRec) (tNext : Nat),
      countSince s0 uid (dayStart tNext) = 0 →
      times.length = quota →
      (∀ t ∈ times, dayStart t = dayStart tNext) →
      (∀ res ∈ (runCalls quota uid msg times s0).2, res.1 = true) ∧
      (check_and_log (.ok ()) (.ok ()) (.ok ())
          (runCalls quota uid msg times s0).1 uid msg tNext quota).2
        = (false, .exhausted quota, 0)) := by
  refine ⟨fun h => check_and_log_rejected_eq s uid msg now quota h,
    fun h => check_and_log_allowed_eq s uid msg now quota h, ?_⟩
  intro times s0 tNext h0 hlen hdays
  obtain ⟨g1, g2⟩ := runCalls_inv quota uid msg (dayStart tNext) times s0 0 h0
    (by omega) hdays
  refine ⟨g1, ?_⟩
  rw [check_and_log_rejected_eq _ uid msg tNext quota (by rw [g2]; omega)]

/-- Witness for C1: with quota 2, two calls at times 0 and 1 (same UTC day)
are both allowed, and a third call at time 2 is rejected with remaining 0. -/
theorem check_and_log_spec_witness :
    (∀ res ∈ (runCalls 2 1 none [0, 1] []).2, res.1 = true) ∧
    (check_and_log (.ok ()) (.ok ()) (.ok ()) (runCalls 2 1 none [0, 1] []).1
        1 none 2 2).2
      = (false, .exhausted 2, 0) :=
  (check_and_log_spec [] 1 none 0 2).2.2 [0, 1] [] 2 (by decide) (by decide) (by decide)

/-- C10: when the usage-count query fails, `get_today_count` returns 0, so
`is_rate_limited` is false (the configured quota is at least 1, enforced by
`rate_limit_per_day: int = Field(default=20, ge=1, le=1000)`), and
`check_and_log` allows the message: a store read error can never cause a
rejection — rate limiting fails open under persistence failure. -/
theorem rate_limiter_fails_open (s : List UsageRec) (uid : Int) (msg : Option Str)
    (now : Nat) (quota : Nat) (oLog o2 : Outcome Unit) (hq : 1 ≤ quota) :
    get_today_count .err s uid now = 0 ∧
    is_rate_limited .err s uid now quota = false ∧
    (check_and_log .err oLog o2 s uid msg now quota).2.1 = true := by
  refine ⟨rfl, ?_, ?_⟩
  · simp [is_rate_limited, get_today_count]
    omega
  · unfold check_and_log
    rw [if_neg (by simp [is_rate_limited, get_today_count]; omega)]

/-- Witness for C10 at the default quota 20. -/
theorem rate_limiter_fails_open_witness :
    get_today_count .err [] 1 0 = 0 ∧
    is_rate_limited .err [] 1 0 20 = false ∧
    (check_and_log .err (.ok ()) (.ok ()) [] 1 none 0 20).2.1 = true :=
  rate_limiter_fails_open [] 1 none 0 20 (.ok ()) (.ok ()) (by decide)

/-- C2 counterexample to the claim as stated: the code " 12345 " contains
whitespace, so it is not all digits and by the claim must be rejected with a
format-specific message; but `_validate_student_code` strips the code
before its isdigit and length checks (while registering the unstripped
code), so registration on a fresh store succeeds. -/
theorem register_user_whitespace_code_counterexample :
    (register_user [] 1 " 12345 ".toList none none).2
      = (true, .success " 12345 ".toList) ∧
    " 12345 ".toList.all Char.isDigit = false := by
  decide

/-- C2 (amended): `register_user` returns exactly one of four outcomes,
checked in this order — failure `alreadyRegistered` when a user row exists
for the chat id; failure `codeTaken` when the code already belongs to a
(necessarily different) stored user; failure with a format-specific message
when the *whitespace-stripped* code is empty, not all digits, or of length
outside [5, 15]; otherwise success with a created row.  The second conjunct
characterises validation on the stripped code; the third gives the claim's
concrete cases: length-4 and length-16 digit codes and a lettered code are
rejected, and a valid numeric code of length 10 succeeds exactly once for a
fresh chat id (a second attempt by the same chat id fails
`alreadyRegistered`, a different chat id reusing the code fails
`codeTaken`). -/
theorem register_user_spec :
    (∀ (s : List UserRec) (tid : Int) (code : Str) (u f : Option Str),
      (∀ urec, get_by_telegram_id s tid = some urec →
        register_user s tid code u f = (s, false, .alreadyRegistered)) ∧
      (get_by_telegram_id s tid = none →
        ∀ urec, get_by_student_code s code = some urec →
          register_user s tid code u f = (s, false, .codeTaken)) ∧
      (get_by_telegram_id s tid = none → get_by_student_code s code = none →
        (validate_student_code code).1 = false →
          register_user s tid code u f = (s, false, (validate_student_code code).2)) ∧
      (get_by_telegram_id s tid = none → get_by_student_code s code = none →
        (validate_student_code code).1 = true →
          register_user s tid code u f =
            (s ++ [⟨tid, code, u, f⟩], true, .success code))) ∧
    (∀ code : Str, (validate_student_code code).1 = true ↔
      (code ≠ [] ∧ pyIsDigit (strip code) = true ∧ 5 ≤ (strip code).length ∧
        (strip code).length ≤ 15)) ∧
    (validate_student_code "1234".toList = (false, .codeTooShort) ∧
     validate_student_code "1234567890123456".toList = (false, .codeTooLong) ∧
     validate_student_code "abcde".toList = (false, .codeNotNumeric) ∧
     (register_user [] 7 "4022020030".toList none none).2
        = (true, .success "4022020030".toList) ∧
     (register_user (register_user [] 7 "4022020030".toList none none).1 7
        "4022020030".toList none none).2 = (false, .alreadyRegistered) ∧
     (register_user (register_user [] 7 "4022020030".toList none none).1 8
        "4022020030".toList none none).2 = (false, .codeTaken)) := by
  refine ⟨?_, ?_, by decide⟩
  · intro s tid code u f
    refine ⟨?_, ?_, ?_, ?_⟩
    · intro urec h
      unfold register_user
      rw [h]
    · intro h1 urec h2
      unfold register_user
      rw [h1, h2]
    · intro h1 h2 hv
      unfold register_user
      rw [h1, h2]
      simp only [if_pos hv]
    · intro h1 h2 hv
      unfold register_user
      rw [h1, h2]
      rw [if_neg (by simp [hv])]
  · intro code
    unfold validate_student_code
    by_cases hc : code = []
    · simp [hc]
    · rw [if_neg hc]
      by_cases hd : pyIsDigit (strip code) = false
      · simp only [if_pos hd]
        simp [hc, hd]
      · rw [Bool.not_eq_false] at hd
        rw [if_neg (by simp [hd])]
        by_cases h5 : (strip code).length < 5
        · rw [if_pos h5]
          simp [hc, hd]
          omega
        · rw [if_neg h5]
          by_cases h15 : 15 < (strip code).length
          · rw [if_pos h15]
            simp [hc, hd]
            omega
          · rw [if_neg h15]
            simp [hc, hd]
            omega

/-- Witness for C2: registering the valid length-5 code "40220" on a fresh
store creates the user row. -/
theorem register_user_spec_witness :
    register_user [] 7 "40220".toList none none
      = ([] ++ [⟨7, "40220".toList, none, none⟩], true, .success "40220".toList) :=
  (register_user_spec.1 [] 7 "40220".toList none none).2.2.2 (by decide) (by decide)
    (by decide)

theorem inBox_iff_toRat (lat lng : DecNum) :
    inBox lat lng ↔
      (25 ≤ lat.toRat ∧ lat.toRat ≤ 40 ∧ 44 ≤ lng.toRat ∧ lng.toRat ≤ 64) := by
  unfold inBox DecNum.toRat
  have h1 : (0 : ℚ) < 10 ^ lat.fexp := by positivity
  have h2 : (0 : ℚ) < 10 ^ lng.fexp := by positivity
  rw [le_div_iff₀ h1, div_le_iff₀ h1, le_div_iff₀ h2, div_le_iff₀ h2]
  constructor <;> intro h <;> obtain ⟨a, b, c, d⟩ := h <;>
    exact ⟨by exact_mod_cast a, by exact_mod_cast b, by exact_mod_cast c,
      by exact_mod_cast d⟩

/-- C3 counterexample to the claim as stated: text carrying the English
labels "latitude:" and "longitude:" with in-box values 35.70 and 51.40
yields no coordinates, because the source pattern recognises only the
Persian labels عرض and طول (the code comments the pattern as
"Persian format: عرض جغرافیایی: 35.858093"). -/
theorem extract_coordinates_english_label_counterexample :
    extract_coordinates "latitude: 35.70, longitude: 51.40".toList = none ∧
    extract_coordinates "latitude: 35.70, longitude: 51.40".toList
      ≠ some (⟨3570, 2⟩, ⟨5140, 2⟩) := by
  decide

/-- C3 (amended): `_extract_coordinates` recognises the Persian labels عرض
(latitude) and طول (longitude), each followed by non-colon characters, a
colon, optional whitespace and a decimal number (English "latitude:" and
"longitude:" labels are not recognised); whenever it returns a pair, the
pair's exact values lie in the box [25,40] × [44,64]; when both labelled
numbers are found, the pair is returned iff it lies in the box (out-of-box
or missing values yield none, never an error); Persian-labelled text with
35.70 and 51.40 yields the pair with values 357/10 and 257/5, while the
same text with latitude 10.0 yields none even though both labels are
present. -/
theorem extract_coordinates_spec :
    (∀ (t : Str) (p : DecNum × DecNum), extract_coordinates t = some p →
      25 ≤ p.1.toRat ∧ p.1.toRat ≤ 40 ∧ 44 ≤ p.2.toRat ∧ p.2.toRat ≤ 64) ∧
    (∀ (t : Str) (lat lng : DecNum), searchLabel latLabel t = some lat →
      searchLabel lngLabel t = some lng →
      extract_coordinates t = (if inBox lat lng then some (lat, lng) else none)) ∧
    (extract_coordinates "عرض جغرافیایی: 35.70 و طول جغرافیایی: 51.40".toList
        = some (⟨3570, 2⟩, ⟨5140, 2⟩) ∧
     (⟨3570, 2⟩ : DecNum).toRat = 357 / 10 ∧
     (⟨5140, 2⟩ : DecNum).toRat = 257 / 5 ∧
     extract_coordinates "عرض جغرافیایی: 10.0 و طول جغرافیایی: 51.40".toList
        = none) := by
  refine ⟨?_, ?_, by decide, by norm_num [DecNum.toRat], by norm_num [DecNum.toRat],
    by decide⟩
  · intro t p h
    unfold extract_coordinates at h
    cases hlat : searchLabel latLabel t with
    | none => rw [hlat] at h; exact absurd h (by simp)
    | some lat =>
      cases hlng : searchLabel lngLabel t with
      | none => rw [hlat, hlng] at h; exact absurd h (by simp)
      | some lng =>
        rw [hlat, hlng] at h
        have h' : (if inBox lat lng then some (lat, lng) else none) = some p := h
        by_cases hbox : inBox lat lng
        · rw [if_pos hbox] at h'
          injection h' with h'
          rw [← h']
          exact (inBox_iff_toRat lat lng).mp hbox
        · rw [if_neg hbox] at h'
          exact absurd h' (by simp)
  · intro t lat lng hlat hlng
    unfold extract_coordinates
    rw [hlat, hlng]

/-- Witness for C3 at the concrete Persian-labelled text. -/
theorem extract_coordinates_spec_witness :
    extract_coordinates "عرض جغرافیایی: 35.70 و طول جغرافیایی: 51.40".toList
      = (if inBox ⟨3570, 2⟩ ⟨5140, 2⟩ then some ((⟨3570, 2⟩ : DecNum), (⟨5140, 2⟩ : DecNum))
         else none) :=
  extract_coordinates_spec.2.1 "عرض جغرافیایی: 35.70 و طول جغرافیایی: 51.40".toList
    ⟨3570, 2⟩ ⟨5140, 2⟩ (by decide) (by decide)

/-- C6: `KnowledgeBaseService.search` never lets an embedding or store
error escape: its try-block body always returns (first conjunct — the
outcome is `ok` whatever the two external calls did), and both an embedding
failure and a store failure produce the empty list. -/
theorem kb_search_never_raises (eo : Outcome (List ℚ)) (so : Outcome (List KRow))
    (limit : Nat) (threshold : ℚ) :
    kb_search_body eo so limit threshold
        = .ok (kb_search eo so limit threshold) ∧
    (eo = .err → kb_search eo so limit threshold = []) ∧
    (so = .err → kb_search eo so limit threshold = []) := by
  refine ⟨?_, ?_, ?_⟩
  · cases eo with
    | err => rfl
    | ok v =>
      by_cases hv : v = []
      · simp [kb_search, kb_search_body, get_embedding, hv]
      · simp [kb_search, kb_search_body, get_embedding, hv]
  · intro h
    subst h
    rfl
  · intro h
    subst h
    cases eo with
    | err => rfl
    | ok v =>
      by_cases hv : v = []
      · simp [kb_search, kb_search_body, get_embedding, hv]
      · simp [kb_search, kb_search_body, get_embedding, repo_search, hv]

/-- Witness for C6: a failed embedding call yields the empty result list. -/
theorem kb_search_never_raises_witness :
    kb_search .err (.ok []) 5 (3 / 10) = [] :=
  (kb_search_never_raises .err (.ok []) 5 (3 / 10)).2.1 rfl

theorem runToolCall_throws {tc : ToolCallData} (h : tcThrows tc = true)
    (loc : Option (DecNum × DecNum)) : runToolCall tc loc = .error .exc := by
  cases harg : tc.args with
  | err => simp [runToolCall, harg]
  | ok a =>
    cases a with
    | none =>
      simp only [tcThrows, harg] at h
      rcases Bool.or_eq_true_iff.mp h with h1 | h1
      · have h1e : tc.name = searchToolName := eq_of_beq h1
        simp [runToolCall, harg, h1e]
      · have h1e : tc.name = sendLocationToolName := eq_of_beq h1
        by_cases hs : tc.name = searchToolName
        · simp [runToolCall, harg, hs]
        · simp [runToolCall, harg, hs, h1e]
    | some s => simp [tcThrows, harg] at h

theorem runToolCall_ok_of_not_throws {tc : ToolCallData} (h : tcThrows tc = false)
    (loc : Option (DecNum × DecNum)) : ∃ r, runToolCall tc loc = .ok r := by
  cases harg : tc.args with
  | err => simp [tcThrows, harg] at h
  | ok a =>
    cases a with
    | none =>
      simp only [tcThrows, harg, Bool.or_eq_false_iff] at h
      have h1 : ¬ tc.name = searchToolName := by
        intro hc
        have := h.1
        rw [hc] at this
        simp at this
      have h2 : ¬ tc.name = sendLocationToolName := by
        intro hc
        have := h.2
        rw [hc] at this
        simp at this
      refine ⟨(none, loc), ?_⟩
      simp [runToolCall, harg, h1, h2]
    | some s =>
      have hstep : runToolCall tc loc =
          (if tc.name = searchToolName then
            .ok (some (formatToolResult (kb_search tc.eo tc.so 5 (3 / 10))), loc)
           else if tc.name = sendLocationToolName then
            .ok (some (serializeLocation (get_location tc.eo tc.so)),
              get_location tc.eo tc.so)
           else .ok (none, loc)) := by
        unfold runToolCall
        rw [harg]
      by_cases h1 : tc.name = searchToolName
      · exact ⟨_, by rw [hstep, if_pos h1]⟩
      · by_cases h2 : tc.name = sendLocationToolName
        · exact ⟨_, by rw [hstep, if_neg h1, if_pos h2]⟩
        · exact ⟨_, by rw [hstep, if_neg h1, if_neg h2]⟩

theorem runToolCalls_err :
    ∀ (tcs : List ToolCallData) (loc : Option (DecNum × DecNum)),
      (∃ tc ∈ tcs, tcThrows tc = true) → runToolCalls tcs loc = .error .exc := by
  intro tcs
  induction tcs with
  | nil =>
    rintro loc ⟨tc, hmem, _⟩
    simp at hmem
  | cons t ts ih =>
    rintro loc ⟨tc, hmem, hth⟩
    rcases List.mem_cons.mp hmem with h1 | h2
    · subst h1
      unfold runToolCalls
      rw [runToolCall_throws hth loc]
    · by_cases ht : tcThrows t = true
      · unfold runToolCalls
        rw [runToolCall_throws ht loc]
      · rw [Bool.not_eq_true] at ht
        obtain ⟨r, hr⟩ := runToolCall_ok_of_not_throws ht loc
        obtain ⟨res, loc1⟩ := r
        unfold runToolCalls
        rw [hr]
        have hrec := ih loc1 ⟨tc, h2, hth⟩
        simp [hrec]

/-- C7: for every user message and conversation history, whenever a
language-model invocation inside `AIAgent.chat` raises — the first
completion call, the second completion call after tool dispatch, or the
handling of a malformed tool-call response (failing `json.loads` or a
missing required argument) — `chat` returns the fixed generic apology with
no location; the exception never propagates (`chat` is the catch-all
wrapping of its body, and every error path lands in the handler). -/
theorem chat_error_apology (history : List (Str × Str)) (userMsg : Str)
    (o1 : Outcome AssistantMsg) (o2 : Outcome (Option Str)) :
    (o1 = .err → chat history userMsg o1 o2 = (apologyText, none)) ∧
    (∀ am, o1 = .ok am → am.tool_calls ≠ [] → o2 = .err →
      chat history userMsg o1 o2 = (apologyText, none)) ∧
    (∀ am tc, o1 = .ok am → tc ∈ am.tool_calls → tcThrows tc = true →
      chat history userMsg o1 o2 = (apologyText, none)) := by
  have hbody : ∀ (am : AssistantMsg),
      chat_body history userMsg (.ok am) o2 =
        (if am.tool_calls = [] then .ok (contentOr am.content defaultText, none)
         else
           match runToolCalls am.tool_calls none with
           | .error e => .error e
           | .ok (_, loc) =>
             match o2 with
             | .err => .error .exc
             | .ok c2 => .ok (contentOr c2 defaultText, loc)) := fun _ => rfl
  refine ⟨?_, ?_, ?_⟩
  · intro h
    subst h
    rfl
  · intro am h htc ho2
    subst h
    subst ho2
    unfold chat
    rw [hbody, if_neg htc]
    cases hrt : runToolCalls am.tool_calls none with
    | error e => rfl
    | ok pr =>
      obtain ⟨res, loc⟩ := pr
      rfl
  · intro am tc h hmem hth
    subst h
    unfold chat
    rw [hbody, if_neg (List.ne_nil_of_mem hmem),
      runToolCalls_err am.tool_calls none ⟨tc, hmem, hth⟩]

/-- Witness for C7: a failing first completion call yields the apology and
no location. -/
theorem chat_error_apology_witness :
    chat [] "hi".toList .err (.ok none) = (apologyText, none) :=
  (chat_error_apology [] "hi".toList .err (.ok none)).1 rfl

end Khuchi
